import Mathlib

/-!
Verification of the diff / formatting core of the json-beautify repository.

The definitions below are a shallow embedding of the TypeScript source:
- computeLineDiff  : the greedy line aligner (JsonWorkspace / JsonDiff)
- sortObjectKeys   : recursive key sorting used by the beautify presets
- formatMarkdown   : the markdown normalization pass
- compareDiff      : the comparison entry point (parse / diff / format),
  parameterized over the external JSON parser, the semantic differ
  (jsondiffpatch) and the JSON serializer (JSON.stringify), which are
  library functions rather than repository code.

Cursor-based loops are embedded as recursion on the remaining suffix of
each list, with the absolute cursor positions carried along so that the
emitted 1-based line numbers match the source.
-/

/-- The classification of one line of a diff (field `type` of `DiffLine`). -/
inductive DiffType where
  | unchanged
  | added
  | removed
  | modifiedOld
  | modifiedNew
deriving DecidableEq, Repr

/-- One unit of the edit script (interface `DiffLine` in the source).
The source marks `lineNumber` optional but always supplies it. -/
structure DiffLine where
  type : DiffType
  content : String
  lineNumber : Nat
deriving DecidableEq, Repr

/-- Lookahead on the right side: the source scans indices
`rightIdx + 1 .. min(rightIdx + 5, rightLines.length) - 1` for the current
left line, i.e. the first 4 elements after the right cursor. -/
def foundInRight (leftLine : String) (rs : List String) : Bool :=
  (rs.take 4).contains leftLine

/-- Lookahead on the left side: the source scans indices
`leftIdx + 1 .. min(leftIdx + 5, leftLines.length) - 1` for the current
right line, i.e. the first 4 elements after the left cursor. -/
def foundInLeft (rightLine : String) (ls : List String) : Bool :=
  (ls.take 4).contains rightLine

/-- The body of the while loop of `computeLineDiff`. The first two list
arguments are the unconsumed suffixes `leftLines[leftIdx:]` and
`rightLines[rightIdx:]`; `li` and `ri` are the absolute cursor values
`leftIdx` and `rightIdx` used for the emitted line numbers. -/
def computeLineDiffAux : List String → List String → Nat → Nat → List DiffLine
  | [], [], _, _ => []
  | [], r :: rs, li, ri =>
    ⟨.added, r, ri + 1⟩ :: computeLineDiffAux [] rs li (ri + 1)
  | l :: ls, [], li, ri =>
    ⟨.removed, l, li + 1⟩ :: computeLineDiffAux ls [] (li + 1) ri
  | l :: ls, r :: rs, li, ri =>
    if l = r then
      ⟨.unchanged, l, li + 1⟩ :: computeLineDiffAux ls rs (li + 1) (ri + 1)
    else if foundInRight l rs = false ∧ foundInLeft r ls = false then
      ⟨.modifiedOld, l, li + 1⟩ :: ⟨.modifiedNew, r, ri + 1⟩ ::
        computeLineDiffAux ls rs (li + 1) (ri + 1)
    else if foundInRight l rs then
      ⟨.removed, l, li + 1⟩ :: computeLineDiffAux ls (r :: rs) (li + 1) ri
    else
      ⟨.added, r, ri + 1⟩ :: computeLineDiffAux (l :: ls) rs li (ri + 1)
termination_by l r _ _ => l.length + r.length
decreasing_by all_goals (simp only [List.length_cons]; omega)

/-- `computeLineDiff(leftLines, rightLines)` from the source. -/
def computeLineDiff (leftLines rightLines : List String) : List DiffLine :=
  computeLineDiffAux leftLines rightLines 0 0

example :
    computeLineDiff ["a", "b", "c"] ["a", "x", "c"] =
      [⟨.unchanged, "a", 1⟩, ⟨.modifiedOld, "b", 2⟩, ⟨.modifiedNew, "x", 2⟩,
       ⟨.unchanged, "c", 3⟩] := by
  simp [computeLineDiff, computeLineDiffAux, foundInRight, foundInLeft]

example :
    computeLineDiff ["a", "c"] ["a", "b", "c"] =
      [⟨.unchanged, "a", 1⟩, ⟨.removed, "c", 2⟩, ⟨.added, "b", 2⟩,
       ⟨.added, "c", 3⟩] := by
  simp [computeLineDiff, computeLineDiffAux, foundInRight, foundInLeft]

/-- The loop of `computeLineDiff`, instrumented with explicit fuel: one
unit of fuel is spent per loop iteration, and `none` is returned if the
fuel runs out before both cursors are exhausted. -/
def computeLineDiffFuel : Nat → List String → List String → Nat → Nat →
    Option (List DiffLine)
  | _, [], [], _, _ => some []
  | 0, _, _, _, _ => none
  | fuel + 1, [], r :: rs, li, ri =>
    (computeLineDiffFuel fuel [] rs li (ri + 1)).map
      (fun t => ⟨.added, r, ri + 1⟩ :: t)
  | fuel + 1, l :: ls, [], li, ri =>
    (computeLineDiffFuel fuel ls [] (li + 1) ri).map
      (fun t => ⟨.removed, l, li + 1⟩ :: t)
  | fuel + 1, l :: ls, r :: rs, li, ri =>
    if l = r then
      (computeLineDiffFuel fuel ls rs (li + 1) (ri + 1)).map
        (fun t => ⟨.unchanged, l, li + 1⟩ :: t)
    else if foundInRight l rs = false ∧ foundInLeft r ls = false then
      (computeLineDiffFuel fuel ls rs (li + 1) (ri + 1)).map
        (fun t => ⟨.modifiedOld, l, li + 1⟩ :: ⟨.modifiedNew, r, ri + 1⟩ :: t)
    else if foundInRight l rs then
      (computeLineDiffFuel fuel ls (r :: rs) (li + 1) ri).map
        (fun t => ⟨.removed, l, li + 1⟩ :: t)
    else
      (computeLineDiffFuel fuel (l :: ls) rs li (ri + 1)).map
        (fun t => ⟨.added, r, ri + 1⟩ :: t)

/-- Any fuel bounded below by the total number of unconsumed lines lets
the instrumented loop finish and agree with the unbounded one: every
iteration consumes at least one line from one of the two sides. -/
theorem computeLineDiffFuel_sound :
    ∀ (fuel : Nat) (l r : List String) (li ri : Nat),
      l.length + r.length ≤ fuel →
      computeLineDiffFuel fuel l r li ri = some (computeLineDiffAux l r li ri) := by
  intro fuel
  induction fuel with
  | zero =>
    intro l r li ri h
    cases l with
    | nil =>
      cases r with
      | nil => simp [computeLineDiffFuel, computeLineDiffAux]
      | cons rh rt => simp at h
    | cons lh lt => simp at h
  | succ n ih =>
    intro l r li ri h
    cases l with
    | nil =>
      cases r with
      | nil => simp [computeLineDiffFuel, computeLineDiffAux]
      | cons rh rt =>
        have h' : ([] : List String).length + rt.length ≤ n := by simp at h ⊢; omega
        simp [computeLineDiffFuel, computeLineDiffAux, ih [] rt li (ri + 1) h']
    | cons lh lt =>
      cases r with
      | nil =>
        have h' : lt.length + ([] : List String).length ≤ n := by simp at h ⊢; omega
        simp [computeLineDiffFuel, computeLineDiffAux, ih lt [] (li + 1) ri h']
      | cons rh rt =>
        have hboth : lt.length + rt.length ≤ n := by
          simp only [List.length_cons] at h; omega
        have hleft : lt.length + (rh :: rt).length ≤ n := by
          simp only [List.length_cons] at h ⊢; omega
        have hright : (lh :: lt).length + rt.length ≤ n := by
          simp only [List.length_cons] at h ⊢; omega
        by_cases heq : lh = rh
        · simp [computeLineDiffFuel, computeLineDiffAux, heq,
            ih lt rt (li + 1) (ri + 1) hboth]
        · by_cases hmod : foundInRight lh rt = false ∧ foundInLeft rh lt = false
          · simp [computeLineDiffFuel, computeLineDiffAux, heq, hmod,
              ih lt rt (li + 1) (ri + 1) hboth]
          · by_cases hfr : foundInRight lh rt
            · simp [computeLineDiffFuel, computeLineDiffAux, heq, hmod, hfr,
                ih lt (rh :: rt) (li + 1) ri hleft]
            · have hfr' : foundInRight lh rt = false := by simpa using hfr
              have hfl : foundInLeft rh lt = true := by
                rcases Bool.eq_false_or_eq_true (foundInLeft rh lt) with hb | hb
                · exact hb
                · exact absurd ⟨hfr', hb⟩ hmod
              simp [computeLineDiffFuel, computeLineDiffAux, heq, hfr', hfl,
                ih (lh :: lt) rt li (ri + 1) hright]

/-- An edit unit consumes a position of the left input exactly when it is
unchanged, removed, or the old half of a modified pair. -/
def consumesLeft (t : DiffType) : Bool :=
  match t with
  | .unchanged | .removed | .modifiedOld => true
  | _ => false

/-- An edit unit consumes a position of the right input exactly when it is
unchanged, added, or the new half of a modified pair. -/
def consumesRight (t : DiffType) : Bool :=
  match t with
  | .unchanged | .added | .modifiedNew => true
  | _ => false

/-- Number of units of a script whose type satisfies `p`. -/
def countUnits (p : DiffType → Bool) : List DiffLine → Nat
  | [] => 0
  | d :: ds => (if p d.type then 1 else 0) + countUnits p ds

theorem computeLineDiffAux_counts :
    ∀ (l r : List String) (li ri : Nat),
      countUnits consumesLeft (computeLineDiffAux l r li ri) = l.length ∧
      countUnits consumesRight (computeLineDiffAux l r li ri) = r.length := by
  intro l r li ri
  induction l, r, li, ri using computeLineDiffAux.induct with
  | case1 li ri => simp [computeLineDiffAux, countUnits]
  | case2 r rs li ri ih =>
    simp [computeLineDiffAux, countUnits, consumesLeft, consumesRight,
      ih.1, ih.2]
    omega
  | case3 l ls li ri ih =>
    simp [computeLineDiffAux, countUnits, consumesLeft, consumesRight,
      ih.1, ih.2]
    omega
  | case4 ls r rs li ri ih =>
    simp [computeLineDiffAux, countUnits, consumesLeft, consumesRight,
      ih.1, ih.2]
    omega
  | case5 l ls r rs li ri heq hmod ih =>
    simp [computeLineDiffAux, countUnits, consumesLeft, consumesRight,
      heq, hmod, ih.1, ih.2]
    omega
  | case6 l ls r rs li ri heq hmod hfr ih =>
    simp [computeLineDiffAux, countUnits, consumesLeft, consumesRight,
      heq, hmod, hfr, ih.1, ih.2]
    omega
  | case7 l ls r rs li ri heq hmod hfr ih =>
    have hfr' : foundInRight l rs = false := by simpa using hfr
    have hfl : foundInLeft r ls = true := by
      rcases Bool.eq_false_or_eq_true (foundInLeft r ls) with hb | hb
      · exact hb
      · exact absurd ⟨hfr', hb⟩ hmod
    simp [computeLineDiffAux, countUnits, consumesLeft, consumesRight,
      heq, hfr', hfl, ih.1, ih.2]
    omega

/-- Units classified removed or modified-old (the classes counted on the
left side by the totality property of the spec). -/
def remOrModOld (t : DiffType) : Bool :=
  match t with
  | .removed | .modifiedOld => true
  | _ => false

/-- Units classified added or modified-new (the classes counted on the
right side by the totality property of the spec). -/
def addOrModNew (t : DiffType) : Bool :=
  match t with
  | .added | .modifiedNew => true
  | _ => false

/-- C1 (counterexample): on left lines [a, c] and right lines [a, b, c]
the aligner does not return [unchanged(a), added(b), unchanged(c)]: the
lookahead finds c ahead on the right and the tie-break emits removed(c)
first, so the script is [unchanged(a), removed(c), added(b), added(c)]. -/
theorem computeLineDiff_scenarioD_not_pure_insertion :
    (computeLineDiff ["a", "c"] ["a", "b", "c"]).map (fun d => (d.type, d.content)) ≠
      [(DiffType.unchanged, "a"), (DiffType.added, "b"),
       (DiffType.unchanged, "c")] := by
  have h : computeLineDiff ["a", "c"] ["a", "b", "c"] =
      [⟨.unchanged, "a", 1⟩, ⟨.removed, "c", 2⟩, ⟨.added, "b", 2⟩,
       ⟨.added, "c", 3⟩] := by
    simp [computeLineDiff, computeLineDiffAux, foundInRight, foundInLeft]
  rw [h]; decide

/-- C1 (amended): for left lines [a, c] and right lines [a, b, c],
computeLineDiff returns exactly [unchanged(a), removed(c), added(b),
added(c)]: the current left line c is found within the right lookahead
window, so it is emitted as removed, and the remaining right lines are
emitted as added. -/
theorem computeLineDiff_scenarioD :
    computeLineDiff ["a", "c"] ["a", "b", "c"] =
      [⟨.unchanged, "a", 1⟩, ⟨.removed, "c", 2⟩, ⟨.added, "b", 2⟩,
       ⟨.added, "c", 3⟩] := by
  simp [computeLineDiff, computeLineDiffAux, foundInRight, foundInLeft]

/-- C2 (counterexample): on left lines [a] and right lines [a] the script
is a single unchanged unit, so the number of removed/modified-old units is
0, not the left length 1 (and likewise on the right side). -/
theorem computeLineDiff_totality_strict_fails :
    ¬ (countUnits remOrModOld (computeLineDiff ["a"] ["a"]) =
         (["a"] : List String).length ∧
       countUnits addOrModNew (computeLineDiff ["a"] ["a"]) =
         (["a"] : List String).length) := by
  have h : computeLineDiff ["a"] ["a"] = [⟨.unchanged, "a", 1⟩] := by
    simp [computeLineDiff, computeLineDiffAux]
  rw [h]; decide

/-- C2 (amended): totality of the edit script: counting the unchanged
units together with the side-specific ones, the number of units classified
unchanged, removed or modified-old equals the length of the left lines and
the number of units classified unchanged, added or modified-new equals the
length of the right lines. -/
theorem computeLineDiff_totality (leftLines rightLines : List String) :
    countUnits consumesLeft (computeLineDiff leftLines rightLines) =
      leftLines.length ∧
    countUnits consumesRight (computeLineDiff leftLines rightLines) =
      rightLines.length :=
  computeLineDiffAux_counts leftLines rightLines 0 0

/-- C3: the lookahead on each side inspects at most the 4 lines beyond the
cursor (its verdict only depends on the first 4 elements of the remaining
suffix), and when the current lines differ but a match is found on both
sides, the loop emits a removed unit for the current left line and
advances only the left cursor. -/
theorem computeLineDiff_lookahead_tiebreak (l r : String) (ls rs : List String)
    (li ri : Nat) :
    (foundInRight l rs = foundInRight l (rs.take 4) ∧
     foundInLeft r ls = foundInLeft r (ls.take 4)) ∧
    (l ≠ r → foundInRight l rs = true → foundInLeft r ls = true →
      computeLineDiffAux (l :: ls) (r :: rs) li ri =
        ⟨.removed, l, li + 1⟩ :: computeLineDiffAux ls (r :: rs) (li + 1) ri) := by
  constructor
  · constructor <;> simp [foundInRight, foundInLeft, List.take_take]
  · intro hne hfr hfl
    have hnm : ¬(foundInRight l rs = false ∧ foundInLeft r ls = false) := by
      simp [hfr]
    simp [computeLineDiffAux, hne, hnm, hfr]

/-- C3 (witness): a concrete both-sides-found step: left [x, y] against
right [y, x]; x is found ahead on the right and y ahead on the left, and
the step emits removed(x) and advances only the left cursor. -/
theorem computeLineDiff_lookahead_tiebreak_witness :
    computeLineDiffAux ["x", "y"] ["y", "x"] 0 0 =
      ⟨.removed, "x", 1⟩ :: computeLineDiffAux ["y"] ["y", "x"] 1 0 :=
  (computeLineDiff_lookahead_tiebreak "x" "y" ["y"] ["x"] 0 0).2
    (by decide) (by decide) (by decide)

theorem computeLineDiffAux_self (L : List String) :
    ∀ li ri, (computeLineDiffAux L L li ri).map (fun d => (d.type, d.content)) =
      L.map (fun s => (DiffType.unchanged, s)) := by
  induction L with
  | nil => intro li ri; simp [computeLineDiffAux]
  | cons l ls ih => intro li ri; simp [computeLineDiffAux, ih]

/-- C4: identity alignment: diffing any line sequence against itself
yields a script of unchanged units only, one per line, whose contents are
the lines in order. -/
theorem computeLineDiff_identity (L : List String) :
    (computeLineDiff L L).map (fun d => (d.type, d.content)) =
      L.map (fun s => (DiffType.unchanged, s)) :=
  computeLineDiffAux_self L 0 0

/-- Checks the modified-pair adjacency discipline of a script: every
modified-old unit is immediately followed by a modified-new unit, and a
modified-new unit never occurs except as that second half. -/
def modPaired : List DiffLine → Bool
  | [] => true
  | d :: ds =>
    match d.type with
    | .modifiedOld =>
      match ds with
      | d2 :: ds2 => (d2.type == .modifiedNew) && modPaired ds2
      | [] => false
    | .modifiedNew => false
    | _ => modPaired ds

theorem modPaired_computeLineDiffAux :
    ∀ (l r : List String) (li ri : Nat),
      modPaired (computeLineDiffAux l r li ri) = true := by
  intro l r li ri
  induction l, r, li, ri using computeLineDiffAux.induct with
  | case1 li ri => simp [computeLineDiffAux, modPaired]
  | case2 r rs li ri ih => simp [computeLineDiffAux, modPaired, ih]
  | case3 l ls li ri ih => simp [computeLineDiffAux, modPaired, ih]
  | case4 ls r rs li ri ih => simp [computeLineDiffAux, modPaired, ih]
  | case5 l ls r rs li ri heq hmod ih =>
    simp [computeLineDiffAux, modPaired, heq, hmod, ih]
  | case6 l ls r rs li ri heq hmod hfr ih =>
    simp [computeLineDiffAux, modPaired, heq, hmod, hfr, ih]
  | case7 l ls r rs li ri heq hmod hfr ih =>
    have hfr' : foundInRight l rs = false := by simpa using hfr
    have hfl : foundInLeft r ls = true := by
      rcases Bool.eq_false_or_eq_true (foundInLeft r ls) with hb | hb
      · exact hb
      · exact absurd ⟨hfr', hb⟩ hmod
    simp [computeLineDiffAux, modPaired, heq, hfr', hfl, ih]

/-- C5: modified-pair adjacency invariant: in every script produced by
computeLineDiff, each modified-old unit is immediately followed by a
modified-new unit and each modified-new unit is immediately preceded by a
modified-old unit. -/
theorem computeLineDiff_modified_pairs (leftLines rightLines : List String) :
    modPaired (computeLineDiff leftLines rightLines) = true :=
  modPaired_computeLineDiffAux leftLines rightLines 0 0

/-- C6: termination of the aligner: granting one unit of fuel per
iteration, any fuel at least the total number of input lines is enough for
the instrumented loop to finish (each iteration strictly consumes at least
one line from one side), and it computes exactly computeLineDiff. -/
theorem computeLineDiff_terminates (leftLines rightLines : List String)
    (fuel : Nat) (h : leftLines.length + rightLines.length ≤ fuel) :
    computeLineDiffFuel fuel leftLines rightLines 0 0 =
      some (computeLineDiff leftLines rightLines) :=
  computeLineDiffFuel_sound fuel leftLines rightLines 0 0 h

/-- C6 (witness): with fuel 2, diffing [a] against [b] finishes and agrees
with computeLineDiff. -/
theorem computeLineDiff_terminates_witness :
    computeLineDiffFuel 2 ["a"] ["b"] 0 0 = some (computeLineDiff ["a"] ["b"]) :=
  computeLineDiff_terminates ["a"] ["b"] 2 (by decide)

/-- Parsed JSON values. Objects are insertion-ordered lists of key/value
fields, as produced by the JS parser; numeric literals are kept opaque
since no repository function inspects them. -/
inductive Json where
  | null
  | bool (b : Bool)
  | num (lit : String)
  | str (s : String)
  | arr (elems : List Json)
  | obj (fields : List (String × Json))
deriving Repr

/-- The ascending code-point order on field keys used by
Object.keys(obj).sort(). -/
def keyLE (a b : String × Json) : Prop := a.1 ≤ b.1

instance : DecidableRel keyLE := fun a b =>
  inferInstanceAs (Decidable (a.1 ≤ b.1))

instance : IsTotal (String × Json) keyLE := ⟨fun a b => le_total a.1 b.1⟩

instance : IsTrans (String × Json) keyLE := ⟨fun _ _ _ hab hbc => le_trans hab hbc⟩

mutual
/-- sortObjectKeys from the source: primitives and null are returned
unchanged, arrays are mapped elementwise, and objects are rebuilt with
their keys in sorted order and their values recursively sorted. The
source sorts the keys first and then transforms each value; since the
sort is stable and compares keys only, transforming the values first and
then sorting (done here so the recursion is structural) builds the same
list. -/
def sortObjectKeys : Json → Json
  | .null => .null
  | .bool b => .bool b
  | .num n => .num n
  | .str s => .str s
  | .arr es => .arr (sortArr es)
  | .obj fs => .obj (List.insertionSort keyLE (sortFieldsVals fs))

/-- Elementwise recursion of sortObjectKeys over an array (obj.map(sortObjectKeys)). -/
def sortArr : List Json → List Json
  | [] => []
  | e :: es => sortObjectKeys e :: sortArr es

/-- Per-field recursion of sortObjectKeys over the fields of an object (the
reduce body sorted[key] = sortObjectKeys(obj[key])). -/
def sortFieldsVals : List (String × Json) → List (String × Json)
  | [] => []
  | (k, v) :: fs => (k, sortObjectKeys v) :: sortFieldsVals fs
end

theorem sortArr_eq_map : ∀ es : List Json, sortArr es = es.map sortObjectKeys := by
  intro es
  induction es with
  | nil => rfl
  | cons e es ih => simp only [sortArr, List.map_cons, ih]

theorem sortFieldsVals_eq_map :
    ∀ fs : List (String × Json),
      sortFieldsVals fs = fs.map (fun kv => (kv.1, sortObjectKeys kv.2)) := by
  intro fs
  induction fs with
  | nil => rfl
  | cons kv fs ih =>
    obtain ⟨k, v⟩ := kv
    simp only [sortFieldsVals, List.map_cons, ih]

theorem sortFieldsVals_eq_self :
    ∀ l : List (String × Json), (∀ kv ∈ l, sortObjectKeys kv.2 = kv.2) →
      sortFieldsVals l = l := by
  intro l
  induction l with
  | nil => intro _; rfl
  | cons kv fs ih =>
    intro h
    obtain ⟨k, v⟩ := kv
    have hv : sortObjectKeys v = v := h (k, v) (List.mem_cons_self _ _)
    simp only [sortFieldsVals, hv]
    rw [ih (fun kv hm => h kv (List.mem_cons_of_mem _ hm))]

mutual
theorem sortObjectKeys_idem : ∀ v : Json,
    sortObjectKeys (sortObjectKeys v) = sortObjectKeys v
  | .null => rfl
  | .bool b => rfl
  | .num n => rfl
  | .str s => rfl
  | .arr es => by
    simp only [sortObjectKeys]
    rw [sortArr_idem es]
  | .obj fs => by
    have hperm := List.perm_insertionSort keyLE (sortFieldsVals fs)
    have hfix : ∀ kv ∈ List.insertionSort keyLE (sortFieldsVals fs),
        sortObjectKeys kv.2 = kv.2 := fun kv hm =>
      sortFieldsVals_fixed fs kv (hperm.mem_iff.mp hm)
    have hsorted : List.Sorted keyLE
        (List.insertionSort keyLE (sortFieldsVals fs)) :=
      List.sorted_insertionSort keyLE (sortFieldsVals fs)
    simp only [sortObjectKeys]
    rw [sortFieldsVals_eq_self _ hfix, hsorted.insertionSort_eq]

theorem sortArr_idem : ∀ es : List Json, sortArr (sortArr es) = sortArr es
  | [] => rfl
  | e :: es => by
    simp only [sortArr]
    rw [sortObjectKeys_idem e, sortArr_idem es]

theorem sortFieldsVals_fixed : ∀ (fs : List (String × Json)) (kv : String × Json),
    kv ∈ sortFieldsVals fs → sortObjectKeys kv.2 = kv.2
  | [], kv, h => absurd h (List.not_mem_nil kv)
  | (k, v) :: fs, kv, h => by
    rcases List.mem_cons.mp h with hh | ht
    · subst hh
      exact sortObjectKeys_idem v
    · exact sortFieldsVals_fixed fs kv ht
end

/-- C7: key-sort idempotence: sorting object keys twice equals sorting
once, so formatting the sorted value with any formatter yields the same
Document both times. -/
theorem sortObjectKeys_idempotent (v : Json) :
    sortObjectKeys (sortObjectKeys v) = sortObjectKeys v ∧
    ∀ fmt : Json → List String,
      fmt (sortObjectKeys (sortObjectKeys v)) = fmt (sortObjectKeys v) :=
  ⟨sortObjectKeys_idem v, fun fmt => congrArg fmt (sortObjectKeys_idem v)⟩

/-- C10: sortObjectKeys preserves structure up to object key order: null
and primitives are unchanged, arrays are mapped elementwise in order, and
an object becomes an object whose field list is a permutation of the
original fields with each value recursively sorted: no key or value is
added, removed or altered. -/
theorem sortObjectKeys_structure :
    sortObjectKeys .null = .null ∧
    (∀ b, sortObjectKeys (.bool b) = .bool b) ∧
    (∀ n, sortObjectKeys (.num n) = .num n) ∧
    (∀ s, sortObjectKeys (.str s) = .str s) ∧
    (∀ es, sortObjectKeys (.arr es) = .arr (es.map sortObjectKeys)) ∧
    (∀ fs, ∃ gs, sortObjectKeys (.obj fs) = .obj gs ∧
      List.Perm gs (fs.map (fun kv => (kv.1, sortObjectKeys kv.2)))) := by
  refine ⟨rfl, fun b => rfl, fun n => rfl, fun s => rfl, ?_, ?_⟩
  · intro es
    simp only [sortObjectKeys]
    rw [sortArr_eq_map]
  · intro fs
    refine ⟨List.insertionSort keyLE (sortFieldsVals fs), by
      simp only [sortObjectKeys], ?_⟩
    rw [sortFieldsVals_eq_map]
    exact List.perm_insertionSort keyLE _

/-- Split a character sequence on the newline character, exactly like
String.prototype.split applied to one-character separators: the empty
input yields one empty line, and a trailing newline yields a trailing
empty line. -/
def splitLines : List Char → List (List Char)
  | [] => [[]]
  | c :: cs =>
    if c = '\n' then [] :: splitLines cs
    else
      match splitLines cs with
      | [] => [[c]]
      | l :: ls => (c :: l) :: ls

/-- Join lines with the newline character (Array.prototype.join with a
one-character separator). -/
def joinLines : List (List Char) → List Char
  | [] => []
  | [l] => l
  | l :: ls => l ++ '\n' :: joinLines ls

/-- Trailing-whitespace removal of one line (String.prototype.trimEnd). -/
def trimEndChars (cs : List Char) : List Char :=
  (cs.reverse.dropWhile Char.isWhitespace).reverse

/-- Whitespace removal on both ends (String.prototype.trim). -/
def trimChars (cs : List Char) : List Char :=
  trimEndChars (cs.dropWhile Char.isWhitespace)

/-- Length of the leading run of '#' characters. -/
def countLeadingHashes : List Char → Nat
  | [] => 0
  | c :: cs => if c = '#' then countLeadingHashes cs + 1 else 0

/-- The heading-normalization rewrite applied to one line: the regex
(1 to 6 '#' characters, then a character that is neither whitespace nor
another '#', then the rest) matches exactly when the maximal leading '#'
run has length 1 to 6 and is followed by a non-whitespace character, and
the replacement is the markers, one space, and the trimmed remainder;
otherwise the line is returned unchanged. -/
def normalizeHeadingLine (line : List Char) : List Char :=
  let k := countLeadingHashes line
  match line.drop k with
  | [] => line
  | c :: rest =>
    if 1 ≤ k ∧ k ≤ 6 ∧ c.isWhitespace = false then
      List.replicate k '#' ++ ' ' :: trimChars (c :: rest)
    else line

/-- The list-indentation rewrite applied to one line: an unordered item
(leading whitespace, a -, * or + marker, at least one whitespace, rest)
or an ordered item (leading whitespace, a digit run, a dot, at least one
whitespace, rest) is re-emitted with indent (original indent / 2) x
indentSize spaces, the marker, one space, and the text after the
whitespace run; other lines are unchanged. -/
def normalizeListLine (indentSize : Nat) (line : List Char) : List Char :=
  let lead := line.takeWhile Char.isWhitespace
  match line.dropWhile Char.isWhitespace with
  | [] => line
  | m :: rest =>
    if m = '-' ∨ m = '*' ∨ m = '+' then
      match rest with
      | [] => line
      | c :: _ =>
        if c.isWhitespace then
          List.replicate (lead.length / 2 * indentSize) ' ' ++
            m :: ' ' :: rest.dropWhile Char.isWhitespace
        else line
    else
      let digits := (m :: rest).takeWhile Char.isDigit
      match (m :: rest).dropWhile Char.isDigit with
      | [] => line
      | d :: tail =>
        if d = '.' then
          match tail with
          | [] => line
          | c :: _ =>
            if 1 ≤ digits.length ∧ c.isWhitespace then
              List.replicate (lead.length / 2 * indentSize) ' ' ++
                digits ++ '.' :: ' ' :: tail.dropWhile Char.isWhitespace
            else line
        else line

/-- Whether a line is blank after trimming (line.trim() === ''). -/
def isBlankLine (cs : List Char) : Bool := trimChars cs matches []

/-- The blank-line collapsing loop: the counter is the number of blank
lines seen so far in the current run, and a blank line is kept only when
it is the first of its run. -/
def collapseBlanksAux : Nat → List (List Char) → List (List Char)
  | _, [] => []
  | n, l :: ls =>
    if isBlankLine l then
      if n + 1 ≤ 1 then l :: collapseBlanksAux (n + 1) ls
      else collapseBlanksAux (n + 1) ls
    else l :: collapseBlanksAux 0 ls

def collapseBlanks (lines : List (List Char)) : List (List Char) :=
  collapseBlanksAux 0 lines

/-- Markdown formatting policy (interface MarkdownPreset): name,
normalizeHeadings, normalizeListIndent, trimTrailingWhitespace,
ensureNewlineAtEnd, normalizeBlankLines. -/
structure MarkdownPreset where
  name : String
  normalizeHeadings : Bool
  normalizeListIndent : Nat
  trimTrailingWhitespace : Bool
  ensureNewlineAtEnd : Bool
  normalizeBlankLines : Bool

/-- The Standard markdown preset of the source. -/
def markdownStandard : MarkdownPreset := ⟨"Standard", true, 2, true, true, true⟩

/-- A policy enabling only the heading-normalization pass, to observe that
pass through formatMarkdown in isolation. -/
def headingPass : MarkdownPreset := ⟨"heading pass", true, 2, false, false, false⟩

/-- formatMarkdown from the source: split into lines, optionally trim
trailing whitespace, optionally normalize headings, always renormalize
list indentation, optionally collapse blank-line runs, join, and
optionally ensure a final newline. -/
def formatMarkdown (content : String) (preset : MarkdownPreset) : String :=
  let lines := splitLines content.data
  let lines := if preset.trimTrailingWhitespace then lines.map trimEndChars else lines
  let lines := if preset.normalizeHeadings then lines.map normalizeHeadingLine else lines
  let lines := lines.map (normalizeListLine preset.normalizeListIndent)
  let lines := if preset.normalizeBlankLines then collapseBlanks lines else lines
  let formatted := joinLines lines
  let formatted :=
    if preset.ensureNewlineAtEnd ∧ formatted.getLast? ≠ some '\n' then
      formatted ++ ['\n']
    else formatted
  String.mk formatted

example : formatMarkdown "#hello" markdownStandard = "# hello\n" := by decide

example : formatMarkdown "#  text" markdownStandard = "#  text\n" := by decide

theorem mk_data (l : List Char) : (String.mk l).data = l := rfl

theorem splitLines_no_newline :
    ∀ cs : List Char, '\n' ∉ cs → splitLines cs = [cs] := by
  intro cs h
  induction cs with
  | nil => rfl
  | cons c cs ih =>
    have hc : ¬ c = '\n' := by
      intro hcc
      exact h (by simp [hcc])
    have h' : '\n' ∉ cs := fun hm => h (List.mem_cons_of_mem c hm)
    simp [splitLines, hc, ih h']

theorem countLeadingHashes_replicate (k : Nat) (c : Char) (cs : List Char)
    (hc : c ≠ '#') :
    countLeadingHashes (List.replicate k '#' ++ c :: cs) = k := by
  induction k with
  | zero => simp [countLeadingHashes, hc]
  | succ n ih => simp [List.replicate_succ, countLeadingHashes, ih]

theorem drop_replicate_append (k : Nat) (t : List Char) :
    (List.replicate k '#' ++ t).drop k = t := by
  have h := List.drop_left (List.replicate k '#') t
  rwa [List.length_replicate] at h

theorem normalizeHeadingLine_match (k : Nat) (c : Char) (cs : List Char)
    (hk1 : 1 ≤ k) (hk6 : k ≤ 6) (hcw : c.isWhitespace = false) (hch : c ≠ '#') :
    normalizeHeadingLine (List.replicate k '#' ++ c :: cs) =
      List.replicate k '#' ++ ' ' :: trimChars (c :: cs) := by
  simp only [normalizeHeadingLine, countLeadingHashes_replicate k c cs hch,
    drop_replicate_append]
  simp [hk1, hk6, hcw]

theorem normalizeHeadingLine_ws (k : Nat) (c : Char) (cs : List Char)
    (hcw : c.isWhitespace = true) :
    normalizeHeadingLine (List.replicate k '#' ++ c :: cs) =
      List.replicate k '#' ++ c :: cs := by
  have hch : c ≠ '#' := by
    intro h
    rw [h] at hcw
    exact absurd hcw (by decide)
  simp only [normalizeHeadingLine, countLeadingHashes_replicate k c cs hch,
    drop_replicate_append]
  simp [hcw]

theorem normalizeListLine_hash (n : Nat) (rest : List Char) :
    normalizeListLine n ('#' :: rest) = '#' :: rest := by
  simp [normalizeListLine, List.takeWhile_cons, List.dropWhile_cons]

/-- C8 (counterexample): the input line begins with one '#' character, but
heading normalization leaves it unchanged because the regex requires a
non-whitespace character right after the markers: the two spaces before
the text are kept, so the output is not the single-space form the claim
requires. -/
theorem formatMarkdown_heading_extra_space_kept :
    formatMarkdown "#  text" markdownStandard = "#  text\n" ∧
    ("#  text\n" : String) ≠ "# text\n" := by
  constructor
  · decide
  · decide

/-- C8 (amended): with heading normalization enabled (and the other
passes disabled to observe it in isolation), a line of 1 to 6 '#'
characters followed immediately by a character that is neither whitespace
nor '#' is rewritten to the markers, exactly one space, and the trimmed
text; a line whose markers are followed by a whitespace character is left
unchanged, so pre-existing extra spaces are not collapsed. -/
theorem formatMarkdown_heading_step (k : Nat) (c : Char) (cs : List Char)
    (hk1 : 1 ≤ k) (hk6 : k ≤ 6) (hnl : '\n' ∉ c :: cs) :
    (c.isWhitespace = false → c ≠ '#' →
      formatMarkdown (String.mk (List.replicate k '#' ++ c :: cs)) headingPass =
        String.mk (List.replicate k '#' ++ ' ' :: trimChars (c :: cs))) ∧
    (c.isWhitespace = true →
      formatMarkdown (String.mk (List.replicate k '#' ++ c :: cs)) headingPass =
        String.mk (List.replicate k '#' ++ c :: cs)) := by
  obtain ⟨m, rfl⟩ : ∃ m, k = m + 1 := ⟨k - 1, by omega⟩
  have hno : '\n' ∉ List.replicate (m + 1) '#' ++ c :: cs := by
    intro hmem
    rcases List.mem_append.mp hmem with hin | hin
    · exact absurd (List.eq_of_mem_replicate hin) (by decide)
    · exact hnl hin
  have hsplit : splitLines ('#' :: (List.replicate m '#' ++ c :: cs)) =
      ['#' :: (List.replicate m '#' ++ c :: cs)] := by
    have hs := splitLines_no_newline _ hno
    rwa [List.replicate_succ, List.cons_append] at hs
  constructor
  · intro hcw hch
    have hh := normalizeHeadingLine_match (m + 1) c cs hk1 hk6 hcw hch
    rw [List.replicate_succ, List.cons_append] at hh
    simp [formatMarkdown, headingPass, mk_data, List.replicate_succ, hsplit,
      Function.comp_apply, hh, normalizeListLine_hash, joinLines]
  · intro hcw
    have hh := normalizeHeadingLine_ws (m + 1) c cs hcw
    rw [List.replicate_succ, List.cons_append] at hh
    simp [formatMarkdown, headingPass, mk_data, List.replicate_succ, hsplit,
      Function.comp_apply, hh, normalizeListLine_hash, joinLines]

/-- C8 (witness): the line "#x" is rewritten by the heading pass to
"# x". -/
theorem formatMarkdown_heading_step_witness :
    formatMarkdown (String.mk (List.replicate 1 '#' ++ 'x' :: [])) headingPass =
      String.mk (List.replicate 1 '#' ++ ' ' :: trimChars ('x' :: [])) :=
  (formatMarkdown_heading_step 1 'x' [] (by decide) (by decide) (by decide)).1
    (by decide) (by decide)

/-- The two content types the comparison workspace handles. -/
inductive ContentType where
  | json
  | markdown

/-- The outcome of one comparison invocation: the error banner text and
the diffResult / semanticDiff state slots (all cleared at the start of
compareDiff, so a failing run leaves them empty). -/
structure CompareResult (Delta : Type) where
  error : String
  diffResult : Option (List DiffLine)
  semanticDiff : Option Delta
deriving Repr

/-- Whether an input is blank, i.e. its trim() is the empty string (the
falsy check !input.trim() of the source). -/
def isBlank (s : String) : Bool := s.data.all Char.isWhitespace

/-- input.split('\n') producing the List String form the aligner takes. -/
def splitNl (s : String) : List String :=
  (splitLines s.data).map String.mk

/-- compareDiff from the source, parameterized over the external
collaborators: parse models JSON.parse (returning the thrown message on
failure), semDiff models diffpatcher.diff, and fmtJson models
formatJson/JSON.stringify with the default 2-space indent. -/
def compareDiff {Delta : Type} (parse : String → Except String Json)
    (semDiff : Json → Json → Option Delta) (fmtJson : Json → String)
    (contentType : ContentType) (primaryInput secondaryInput : String) :
    CompareResult Delta :=
  if isBlank primaryInput || isBlank secondaryInput then
    ⟨(match contentType with
      | .markdown => "Please enter markdown in both panels to compare"
      | .json => "Please enter JSON in both panels to compare"), none, none⟩
  else
    match contentType with
    | .markdown =>
      ⟨"", some (computeLineDiff (splitNl primaryInput) (splitNl secondaryInput)),
        none⟩
    | .json =>
      match parse primaryInput with
      | .error msg => ⟨"Invalid JSON: " ++ msg, none, none⟩
      | .ok left =>
        match parse secondaryInput with
        | .error msg => ⟨"Invalid JSON: " ++ msg, none, none⟩
        | .ok right =>
          ⟨"", some (computeLineDiff (splitNl (fmtJson left))
              (splitNl (fmtJson right))), semDiff left right⟩

/-- C9: fail-fast on JSON parse errors: for JSON content on non-blank
inputs, if the left input fails to parse (or the left parses and the
right fails), compareDiff reports the Invalid JSON error carrying the
message of the parser, the diff result stays empty (no EditScript) and the
semantic delta stays empty: formatting and semantic diffing are skipped. -/
theorem compareDiff_parse_failure {Delta : Type}
    (parse : String → Except String Json)
    (semDiff : Json → Json → Option Delta) (fmtJson : Json → String)
    (p s msg : String) (hp : isBlank p = false) (hs : isBlank s = false) :
    (parse p = .error msg →
      compareDiff parse semDiff fmtJson .json p s =
        ⟨"Invalid JSON: " ++ msg, none, none⟩) ∧
    (∀ left, parse p = .ok left → parse s = .error msg →
      compareDiff parse semDiff fmtJson .json p s =
        ⟨"Invalid JSON: " ++ msg, none, none⟩) := by
  constructor
  · intro hparse
    simp [compareDiff, hp, hs, hparse]
  · intro left hleft hparse
    simp [compareDiff, hp, hs, hleft, hparse]

/-- C9 (witness): comparing the malformed left input with a parser that
rejects it yields the Invalid JSON error and empty diff and delta. -/
theorem compareDiff_parse_failure_witness :
    compareDiff (fun _ => Except.error "Unexpected token i in JSON at position 1")
      (fun _ _ => (none : Option Unit)) (fun _ => "") ContentType.json
      "\x7binvalid" "\x7b\x7d" =
      ⟨"Invalid JSON: Unexpected token i in JSON at position 1", none, none⟩ :=
  (compareDiff_parse_failure (fun _ => Except.error "Unexpected token i in JSON at position 1")
    (fun _ _ => (none : Option Unit)) (fun _ => "") "\x7binvalid" "\x7b\x7d"
    "Unexpected token i in JSON at position 1" (by decide) (by decide)).1 rfl
